import Mathlib

/-!
Shallow embedding of the ollama-mcp-client repository.

Python strings are modeled by Lean `String` and manipulated through their
character sequence (`String.data`), which matches Python string semantics
(indexing and containment by code point) on the ASCII fragment exercised here.
Python `dict[str, ...]` values (insertion ordered) are modeled by association
lists `List (String × _)` in insertion order.

Source files embedded:
- src/MCP/ollama-mcp-client/server/server.py   (`extract_keywords`,
  `calculate_match_score`, `smart_query`)
- src/MCP/ollama-mcp-client/src/clients/ollama_client.py (`OllamaMCPClient`)
-/

namespace MCPModel

/-! ## Python string primitives -/

/-- Python regex `\s` (whitespace class), ASCII fragment. -/
def pyIsSpace (c : Char) : Bool :=
  c == ' ' || c == '\t' || c == '\n' || c == '\x0d' || c == '\x0b' || c == '\x0c'

/-- Python `str.lower()` (ASCII fragment, as `Char.toLower`). -/
def pyLower (s : String) : String := ⟨s.data.map Char.toLower⟩

/-- Python substring test `needle in hay` on character lists. -/
def listContainsSub (hay needle : List Char) : Bool :=
  match hay with
  | [] => needle.isEmpty
  | _ :: t => needle.isPrefixOf hay || listContainsSub t needle

/-- Python substring test `needle in hay` for strings. -/
def pyInStr (needle hay : String) : Bool := listContainsSub hay.data needle.data

/-- Helper for Python `str.split`: accumulate the current (reversed) chunk,
cutting at every character satisfying `p`.  Empty chunks are kept, as in
Python `s.split(sep)` with an explicit separator. -/
def pySplitAux (p : Char → Bool) : List Char → List Char → List (List Char)
  | [], acc => [acc.reverse]
  | c :: cs, acc => if p c then acc.reverse :: pySplitAux p cs [] else pySplitAux p cs (c :: acc)

/-- Python `s.split(sep)` for a one-character separator (keeps empty chunks). -/
def pySplitOnChar (sep : Char) (s : String) : List String :=
  (pySplitAux (· == sep) s.data []).map String.mk

/-- Python `s.split()` with no argument: split on whitespace runs, dropping
empty chunks. -/
def pySplitWs (s : String) : List String :=
  ((pySplitAux pyIsSpace s.data []).filter (· ≠ [])).map String.mk

/-! ## server/server.py — keyword extraction and scoring -/

/-- The stopword set of `extract_keywords` (server/server.py lines 85-95). -/
def stopwords : List String :=
  ["what", "is", "are", "the", "a", "an", "in", "on", "at", "to", "for",
   "of", "with", "by", "from", "about", "as", "into", "through", "during",
   "before", "after", "above", "below", "between", "under", "again",
   "further", "then", "once", "here", "there", "when", "where", "why",
   "how", "all", "both", "each", "few", "more", "most", "other", "some",
   "such", "no", "nor", "not", "only", "own", "same", "so", "than",
   "too", "very", "can", "will", "just", "should", "do", "does", "did",
   "tell", "me", "please", "you", "i", "my", "your", "it", "its", "this",
   "that", "these", "those", "and", "or", "but", "if", "because"]

/-- Character class `[a-z0-9\s]` of the regex in `extract_keywords`
(applied after lower-casing, so upper-case letters are already gone). -/
def keptChar (c : Char) : Bool :=
  ('a' ≤ c && c ≤ 'z') || ('0' ≤ c && c ≤ '9') || pyIsSpace c

/-- Python re.sub with pattern class complement-of [a-z0-9\s] and a space
replacement: replace every character outside the class by a space. -/
def pySubNonAlnum (s : String) : String :=
  ⟨s.data.map (fun c => if keptChar c then c else ' ')⟩

/-- server/server.py `extract_keywords` (lines 75-108): lower-case, replace
non-alphanumerics by spaces, split on whitespace, drop stopwords and words of
length ≤ 2. -/
def extract_keywords (query : String) : List String :=
  let query_lower := pyLower query
  let query_clean := pySubNonAlnum query_lower
  let words := pySplitWs query_clean
  words.filter (fun word => word ∉ stopwords ∧ word.length > 2)

/-- server/server.py `calculate_match_score` (lines 111-132): fraction of
keywords occurring verbatim as substrings of the lower-cased question
(`0` for an empty keyword list).  Python floats are modeled by `ℚ`. -/
def calculate_match_score (query_keywords : List String) (db_question : String) : ℚ :=
  if query_keywords = [] then 0
  else
    let db_question_lower := pyLower db_question
    let matched := (query_keywords.filter (fun keyword => pyInStr keyword db_question_lower)).length
    (matched : ℚ) / (query_keywords.length : ℚ)

/-! ## server/server.py — smart_query -/

/-- A row of the `main` table of data.db (columns `question`, `answer`). -/
structure Row where
  question : String
  answer : String
deriving DecidableEq

/-- An entry of the `matches` list built inside `smart_query`. -/
structure MatchEntry where
  question : String
  answer : String
  score : ℚ
deriving DecidableEq

/-- Rounding of Python float formatting `f"{x:.0f}"` (round half to even). -/
def roundHalfEven (q : ℚ) : ℤ :=
  let f := ⌊q⌋
  let r := q - (f : ℚ)
  if r < 1 / 2 then f
  else if 1 / 2 < r then f + 1
  else if Even f then f else f + 1

/-- Insert `x` behind every entry of score ≥ `x.score`; helper realizing
Python `list.sort(key=..., reverse=True)` (stable, descending). -/
def insertByScoreDesc (x : MatchEntry) : List MatchEntry → List MatchEntry
  | [] => [x]
  | y :: ys => if x.score ≤ y.score then y :: insertByScoreDesc x ys else x :: y :: ys

/-- Python `matches.sort(key=lambda x: x[\x27score\x27], reverse=True)`:
stable sort, descending by score. -/
def sortByScoreDesc : List MatchEntry → List MatchEntry
  | [] => []
  | x :: xs => insertByScoreDesc x (sortByScoreDesc xs)

/-- SQLite `column LIKE \x27%kw%\x27`: ASCII-case-insensitive containment. -/
def sqliteLikeContains (text kw : String) : Bool :=
  pyInStr (pyLower kw) (pyLower text)

/-- server/server.py line 161: message returned when no keywords survive. -/
def rephraseMsg : String :=
  "I couldn\x27t identify any meaningful keywords in your query. Please try rephrasing your question."

/-- The `matches` list of `smart_query` (lines 168-176): rows scoring > 0,
in table order, with their scores. -/
def smartMatches (db : List Row) (keywords : List String) : List MatchEntry :=
  db.filterMap (fun row =>
    let score := calculate_match_score keywords row.question
    if 0 < score then some ⟨row.question, row.answer, score⟩ else none)

/-- The fallback query of `smart_query` (lines 183-185):
`SELECT * FROM main WHERE question LIKE ? OR answer LIKE ?` on keyword 0. -/
def fallbackRows (db : List Row) (kw : String) : List Row :=
  db.filter (fun row => sqliteLikeContains row.question kw || sqliteLikeContains row.answer kw)

/-- One fallback result block (line 189). -/
def fallbackBlock (r : Row) : String :=
  "Q: " ++ r.question ++ "\nA: " ++ r.answer ++ "\n--------\n"

/-- One ranked result block (lines 196-198). -/
def matchBlock (idx : Nat) (m : MatchEntry) : String :=
  "Match " ++ toString idx ++ " (Relevance: " ++ toString (roundHalfEven (m.score * 100)) ++
    "%):\n" ++ "Q: " ++ m.question ++ "\n" ++ "A: " ++ m.answer ++ "\n--------\n"

/-- Rendering of `enumerate(matches[:3], 1)` (lines 195-198). -/
def renderTopMatches (tops : List MatchEntry) : String :=
  String.join ((List.enumFrom 1 tops).map (fun p => matchBlock p.1 p.2))

/-- The no-match message (line 192). -/
def noMatchMsg (keywords : List String) : String :=
  "No matches found for your query. Keywords searched: " ++ String.intercalate ", " keywords

/-- server/server.py `smart_query` (lines 135-205), over an in-memory model
of the `main` table (the sqlite3.Error branch is unreachable in this model). -/
def smart_query (db : List Row) (user_query : String) : String :=
  match extract_keywords user_query with
  | [] => rephraseMsg
  | k0 :: krest =>
    let keywords := k0 :: krest
    let matched := smartMatches db keywords
    match matched with
    | [] =>
      let fb := fallbackRows db k0
      if fb = [] then noMatchMsg keywords
      else "Based on keyword \x27" ++ k0 ++ "\x27:\n" ++ String.join (fb.map fallbackBlock)
    | _ :: _ => renderTopMatches ((sortByScoreDesc matched).take 3)

/-! ## src/clients/ollama_client.py — data model

A live MCP session is modeled by the namespaced tool list stored in its
`Session` record (ollama_client.py line 89) together with the behavior of
its remote `call_tool` endpoint.  A remote call either raises (modeled as
`Except.error` carrying the rendered exception text) or returns a list of
content parts, of which only the first text part is consumed (line 201). -/

/-- One content part of an MCP `call_tool` result (`mcp.types`): a text part
or any other typed payload. -/
inductive ContentPart
  | text (t : String)
  | nonText
deriving DecidableEq

/-- Model of `abstract.session.Session` (not under src/): the record stored
per server at ollama_client.py line 89, holding the namespaced tool list and
the live connection.  The connection is modeled by its `call_tool` behavior:
tool name → rendered arguments → raised error or content list. -/
structure Session where
  tools : List String
  callTool : String → String → Except String (List ContentPart)

/-- Python exceptions that escape the client's own code uncaught. -/
inductive PyExc
  | keyError (key : String)
  | indexError
  | endpointUnavailable
deriving DecidableEq

/-- Model of ollama.Message.ToolCall.Function: namespaced tool name plus
argument map (the map is not interpreted by the client; modeled by its
rendered text). -/
structure ToolCallFn where
  name : String
  arguments : String
deriving DecidableEq

/-- Model of ollama.Message.ToolCall. -/
structure MsgToolCall where
  function : ToolCallFn
deriving DecidableEq

/-- Model of `abstract.api_response.ChatResponse` (not under src/): the units
yielded by `process_message`, constructed in ollama_client.py lines 176 and
182 with an explicit role and content. -/
structure ChatResponse where
  role : String
  content : String
deriving DecidableEq

/-- One entry of `self.messages` (the dicts appended at lines 148, 157, 183). -/
structure HistMsg where
  role : String
  content : String
deriving DecidableEq

/-- One streamed `part.message` of an ollama chat response: content text and
requested tool calls, either of which may be absent (`""` / `[]`). -/
structure StreamPart where
  content : String
  tool_calls : List MsgToolCall
deriving DecidableEq

/-! ## Tool catalog (get_tools / select_server) -/

/-- ollama_client.py `get_tools` (lines 126-127): concatenation of the stored
tool lists of the sessions in the current scope, in insertion order. -/
def get_tools (selected : List (String × Session)) : List String :=
  selected.flatMap (fun p => p.2.tools)

/-- ollama_client.py `select_server` (lines 129-132): keep the sessions whose
name is listed, preserving insertion order; never an error. -/
def select_server (servers : List (String × Session)) (names : List String) :
    List (String × Session) :=
  servers.filter (fun p => p.1 ∈ names)

/-- Python `self.selected_server[key]` lookup (raises `KeyError` if absent;
the raise is modeled at the call site in `tool_call`). -/
def lookupServer (selected : List (String × Session)) (key : String) : Option Session :=
  (selected.find? (fun p => p.1 == key)).map (fun p => p.2)

/-! ## Tool invoker (_tool_call) -/

/-- Rendering of `f"{tool.function}"` in the error message at line 204. -/
def renderFn (fn : ToolCallFn) : String :=
  "name=\x27" ++ fn.name ++ "\x27 arguments=" ++ fn.arguments

/-- The body of the `try` block at lines 198-201: execute the remote call and
extract `result.content[0].text`.  An empty content list (IndexError) or a
non-text first part (no `text` attribute) raises inside the `try`. -/
def callAndExtract (sess : Session) (tool_name tool_args : String) : Except String String :=
  match sess.callTool tool_name tool_args with
  | .error e => .error e
  | .ok [] => .error "list index out of range"
  | .ok (.text t :: _) => .ok t
  | .ok (.nonText :: _) => .error "object has no attribute \x27text\x27"

/-- One iteration of the loop in `_tool_call` (lines 191-207).  The
`selected_server[split[0]]` lookup and the `split[1]` indexing happen before
the `try` block, so their KeyError / IndexError propagate; every failure
inside the `try` is caught and rendered into the message (lines 202-204). -/
def tool_call_one (selected : List (String × Session)) (tc : MsgToolCall) :
    Except PyExc String :=
  let split := pySplitOnChar '/' tc.function.name
  match lookupServer selected (split.headD "") with
  | none => .error (.keyError (split.headD ""))
  | some sess =>
    match split[1]? with
    | none => .error .indexError
    | some tool_name =>
      let tool_args := tc.function.arguments
      match callAndExtract sess tool_name tool_args with
      | .ok t =>
        .ok ("tool: " ++ tc.function.name ++ "\nargs: " ++ tool_args ++ "\nreturn: " ++ t)
      | .error e =>
        .ok ("Error in tool: " ++ renderFn tc.function ++ "\nargs: " ++ tool_args ++ "\n" ++ e)

/-- ollama_client.py `_tool_call` (lines 189-208): sequential loop over the
requested calls, collecting one message per call; an uncaught exception in
one iteration aborts the whole call. -/
def tool_call (selected : List (String × Session)) :
    List MsgToolCall → Except PyExc (List String)
  | [] => .ok []
  | tc :: rest =>
    match tool_call_one selected tc with
    | .error e => .error e
    | .ok m =>
      match tool_call selected rest with
      | .error e => .error e
      | .ok ms => .ok (m :: ms)

/-! ## Conversation engine (_recursive_prompt / process_message)

The chat endpoint is modeled by a script: the list of streamed responses it
will produce, each a list of `StreamPart`s.  Each call to `self.client.chat`
consumes the next stream; running out of script models an unreachable
endpoint (fatal for the turn).  The result carries, besides the yielded
units and the final history, two ghost counters used only in statements:
the number of parts processed as tool-call batches and the number of
streamed responses consumed. -/

/-- The `async for part in stream` loop of `_recursive_prompt`
(lines 173-183): classify each part (content wins over tool calls), yield
assistant chunks, run tool batches, append their messages to the history,
and count processed batches (`tool_message_count`). -/
def runStream (selected : List (String × Session)) :
    List StreamPart → List HistMsg →
    Except PyExc (List ChatResponse × List HistMsg × Nat)
  | [], hist => .ok ([], hist, 0)
  | p :: ps, hist =>
    if p.content ≠ "" then
      match runStream selected ps hist with
      | .error e => .error e
      | .ok (ys, h, n) => .ok (ChatResponse.mk "assistant" p.content :: ys, h, n)
    else if p.tool_calls ≠ [] then
      match tool_call selected p.tool_calls with
      | .error e => .error e
      | .ok msgs =>
        match runStream selected ps (hist ++ msgs.map (HistMsg.mk "tool")) with
        | .error e => .error e
        | .ok (ys, h, n) => .ok (msgs.map (ChatResponse.mk "tool") ++ ys, h, n + 1)
    else
      runStream selected ps hist

/-- ollama_client.py `_recursive_prompt` (lines 162-187): consume one stream;
if any tool-call batch was processed (`tool_message_count > 0`), recurse and
concatenate the recursive yields. -/
def recursive_prompt (selected : List (String × Session)) :
    List (List StreamPart) → List HistMsg →
    Except PyExc (List ChatResponse × List HistMsg × Nat × Nat)
  | [], _ => .error .endpointUnavailable
  | parts :: rest, hist =>
    match runStream selected parts hist with
    | .error e => .error e
    | .ok (ys, h, n) =>
      if n > 0 then
        match recursive_prompt selected rest h with
        | .error e => .error e
        | .ok (ys2, h2, b2, c2) => .ok (ys ++ ys2, h2, n + b2, 1 + c2)
      else
        .ok (ys, h, n, 1)

/-- ollama_client.py `process_message` (lines 153-160): append the user
message to the history, then run the recursive resolve loop. -/
def process_message (selected : List (String × Session))
    (script : List (List StreamPart)) (hist : List HistMsg) (message : String) :
    Except PyExc (List ChatResponse × List HistMsg × Nat × Nat) :=
  recursive_prompt selected script (hist ++ [HistMsg.mk "user" message])

/-- ollama_client.py `prepare_prompt` (lines 134-151): reset the history to
the system prompt alone (the prompt text does not matter to the claims). -/
def prepare_prompt (system_prompt : String) : List HistMsg :=
  [HistMsg.mk "system" system_prompt]

/-! ## Lifecycle (AsyncExitStack / create)

`AsyncExitStack` is modeled by the list of entered contexts in acquisition
order; `aclose` invokes the exit callbacks in reverse (LIFO) order and
leaves the stack empty.  Each `_connect_to_server` call enters two contexts
(lines 106-107): the stdio transport and the `ClientSession`. -/

/-- A context entered on the exit stack for a named server. -/
inductive Ctx
  | stdio (server : String)
  | session (server : String)
deriving DecidableEq

/-- Model of AsyncExitStack.aclose(): release every entered context in reverse
acquisition order and empty the stack.  Returns (released sequence, new
stack).  Closing an already-closed (empty) stack releases nothing and does
not raise. -/
def aclose (stack : List Ctx) : List Ctx × List Ctx :=
  (stack.reverse, [])

/-- ollama_client.py `__aexit__` (lines 73-77): close the exit stack
(a `ValueError` from the close is swallowed; `aclose` itself is total in
this model, so the wrapper coincides with `aclose`). -/
def aexit (stack : List Ctx) : List Ctx × List Ctx :=
  aclose stack

/-- Outcome of the environment when connecting one configured server:
the stdio transport fails to start; or the transport and session come up but
`initialize()` fails; or the handshake succeeds and the server advertises
`advertised` tools with remote behavior `beh`.  The carried string is the
rendered Python exception. -/
inductive ConnectOutcome
  | stdioFail (e : String)
  | initFail (e : String)
  | ok (advertised : List String) (beh : String → String → Except String (List ContentPart))

/-- One configured server: its name and how connecting to it goes. -/
structure ServerSpec where
  name : String
  outcome : ConnectOutcome

/-- The rendered exception of a failing spec (`""` for a succeeding one). -/
def ServerSpec.failMsg (sp : ServerSpec) : String :=
  match sp.outcome with
  | .stdioFail e => e
  | .initFail e => e
  | .ok _ _ => ""

/-- Whether connecting to this spec succeeds. -/
def ServerSpec.succeeds (sp : ServerSpec) : Bool :=
  match sp.outcome with
  | .ok _ _ => true
  | _ => false

/-- The tool names a spec's server advertises (`[]` for a failing one). -/
def ServerSpec.advertised (sp : ServerSpec) : List String :=
  match sp.outcome with
  | .ok advertised _ => advertised
  | _ => []

/-- The `Session` record a succeeding spec yields (dummy for failing ones). -/
def ServerSpec.sessionOf (sp : ServerSpec) : Session :=
  match sp.outcome with
  | .ok advertised beh => ⟨advertised.map (fun t => sp.name ++ "/" ++ t), beh⟩
  | _ => ⟨[], fun _ _ => .error ""⟩

/-- The contexts a spec leaves on the exit stack once `_connect_to_server`
has run on it (both contexts are entered before `initialize()` is awaited). -/
def ServerSpec.ctxs (sp : ServerSpec) : List Ctx :=
  match sp.outcome with
  | .stdioFail _ => []
  | .initFail _ => [Ctx.stdio sp.name, Ctx.session sp.name]
  | .ok _ _ => [Ctx.stdio sp.name, Ctx.session sp.name]

/-- ollama_client.py `_connect_to_server` (lines 98-124): enter the stdio
transport and the `ClientSession` on the exit stack, initialize, then build
the namespaced `Tool` list `f"{name}/{tool.name}"`.  On failure the raised
exception propagates with the stack as it stands — nothing is released. -/
def connect_to_server (sp : ServerSpec) (stack : List Ctx) :
    Except (String × List Ctx) (Session × List Ctx) :=
  match sp.outcome with
  | .stdioFail e => .error (e, stack)
  | .initFail e => .error (e, stack ++ sp.ctxs)
  | .ok advertised beh =>
    .ok (⟨advertised.map (fun t => sp.name ++ "/" ++ t), beh⟩, stack ++ sp.ctxs)

/-- ollama_client.py `_connect_to_multiple_servers` (lines 86-96): connect to
every configured server in order, recording each `Session` under its name;
the first failure aborts the loop, propagating the exception and the
unclosed stack. -/
def connect_to_multiple_servers :
    List ServerSpec → List Ctx →
    Except (String × List Ctx) (List (String × Session) × List Ctx)
  | [], stack => .ok ([], stack)
  | sp :: rest, stack =>
    match connect_to_server sp stack with
    | .error e => .error e
    | .ok (sess, stack1) =>
      match connect_to_multiple_servers rest stack1 with
      | .error e => .error e
      | .ok (m, stack2) => .ok ((sp.name, sess) :: m, stack2)

/-- The state of a constructed client: its sessions, the default scope
(`selected_server = servers`, line 92), and its exit stack. -/
structure ClientState where
  servers : List (String × Session)
  selected_server : List (String × Session)
  stack : List Ctx

/-- ollama_client.py `create` (lines 79-84): construct the client (empty
exit stack) and connect to every configured server.  On failure the
exception propagates out of `create` unchanged and **no cleanup runs**: the
error carries the exit stack as `create` leaves it. -/
def create (config : List ServerSpec) : Except (String × List Ctx) ClientState :=
  match connect_to_multiple_servers config [] with
  | .error e => .error e
  | .ok (servers, stack) => .ok ⟨servers, servers, stack⟩

/-! ## Concrete fixtures used by witnesses and counterexamples -/

/-- A concrete remote behavior: tool "bad" raises, every other tool returns
one text part. -/
def behA : String → String → Except String (List ContentPart) := fun tool_name _ =>
  if tool_name == "bad" then .error "boom" else .ok [ContentPart.text ("result of " ++ tool_name)]

/-- A concrete session for server "a" with one namespaced tool. -/
def sessA : Session := ⟨["a/t"], behA⟩

/-- The tool catalog of a freshly constructed client, if construction
succeeds (used to state closed counterexamples without binders). -/
def toolsOfCreated (config : List ServerSpec) : Option (List String) :=
  match create config with
  | .ok cl => some (get_tools cl.selected_server)
  | .error _ => none

end MCPModel

namespace MCPModel

/-! ## Supporting lemmas -/

theorem get_tools_singleton (a : String) (sess : Session) :
    get_tools [(a, sess)] = sess.tools := by
  simp [get_tools]

theorem select_server_eq_nil (servers : List (String × Session)) (names : List String)
    (h : ∀ p ∈ servers, p.1 ∉ names) : select_server servers names = [] := by
  induction servers with
  | nil => rfl
  | cons hd tl ih =>
    simp only [select_server, List.filter_cons]
    rw [if_neg (by simpa using h hd (List.mem_cons_self hd tl))]
    exact ih (fun p hp => h p (List.mem_cons_of_mem hd hp))

theorem select_server_single (servers : List (String × Session)) (a : String) (sess : Session)
    (hnd : (servers.map Prod.fst).Nodup) (hmem : (a, sess) ∈ servers) :
    select_server servers [a] = [(a, sess)] := by
  induction servers with
  | nil => cases hmem
  | cons hd tl ih =>
    simp only [List.map_cons, List.nodup_cons] at hnd
    rcases List.mem_cons.mp hmem with heq | htl
    · subst heq
      simp only [select_server, List.filter_cons]
      rw [if_pos (by simp)]
      have : select_server tl [a] = [] := by
        refine select_server_eq_nil tl [a] (fun p hp hmem1 => ?_)
        have hpa : p.1 = a := by simpa using hmem1
        have h2 : p.1 ∈ List.map Prod.fst tl := List.mem_map_of_mem Prod.fst hp
        exact hnd.1 (hpa ▸ h2)
      simpa [select_server] using this
    · have hne : hd.1 ≠ a := by
        intro h
        exact hnd.1 (h ▸ List.mem_map_of_mem Prod.fst htl)
      simp only [select_server, List.filter_cons]
      rw [if_neg (by simpa using hne)]
      exact ih hnd.2 htl

theorem tool_call_one_ok (selected : List (String × Session)) (tc : MsgToolCall)
    (hlen : 2 ≤ (pySplitOnChar '/' tc.function.name).length)
    (hsome : (lookupServer selected ((pySplitOnChar '/' tc.function.name).headD "")).isSome) :
    ∃ m, tool_call_one selected tc = .ok m := by
  obtain ⟨sess, hsess⟩ := Option.isSome_iff_exists.mp hsome
  have h1 : 1 < (pySplitOnChar '/' tc.function.name).length := by omega
  simp only [tool_call_one, hsess, List.getElem?_eq_getElem h1]
  cases callAndExtract sess (pySplitOnChar '/' tc.function.name)[1] tc.function.arguments with
  | ok t => exact ⟨_, rfl⟩
  | error e => exact ⟨_, rfl⟩

theorem succeeds_ctxs (sp : ServerSpec) (h : sp.succeeds) :
    sp.ctxs = [Ctx.stdio sp.name, Ctx.session sp.name] := by
  cases hso : sp.outcome with
  | ok adv beh => simp [ServerSpec.ctxs, hso]
  | stdioFail e => simp [ServerSpec.succeeds, hso] at h
  | initFail e => simp [ServerSpec.succeeds, hso] at h

theorem connect_fail (pre : List ServerSpec) (sp : ServerSpec) (post : List ServerSpec)
    (st : List Ctx) (hpre : ∀ s ∈ pre, s.succeeds) (hsp : ¬ sp.succeeds) :
    connect_to_multiple_servers (pre ++ sp :: post) st =
      .error (sp.failMsg, st ++ pre.flatMap ServerSpec.ctxs ++ sp.ctxs) := by
  induction pre generalizing st with
  | nil =>
    cases hso : sp.outcome with
    | ok adv beh => simp [ServerSpec.succeeds, hso] at hsp
    | stdioFail e =>
      simp [connect_to_multiple_servers, connect_to_server, hso, ServerSpec.failMsg,
        ServerSpec.ctxs]
    | initFail e =>
      simp [connect_to_multiple_servers, connect_to_server, hso, ServerSpec.failMsg,
        ServerSpec.ctxs]
  | cons s pre1 ih =>
    have hs : s.succeeds := hpre s (List.mem_cons_self s pre1)
    cases hso : s.outcome with
    | ok adv beh =>
      have ihx := ih (st ++ s.ctxs) (fun x hx => hpre x (List.mem_cons_of_mem s hx))
      simp only [List.cons_append, connect_to_multiple_servers, connect_to_server, hso]
      simp only [List.append_eq, ihx]
      simp [ServerSpec.ctxs, hso, List.append_assoc]
    | stdioFail e => simp [ServerSpec.succeeds, hso] at hs
    | initFail e => simp [ServerSpec.succeeds, hso] at hs

theorem create_fail (pre : List ServerSpec) (sp : ServerSpec) (post : List ServerSpec)
    (hpre : ∀ s ∈ pre, s.succeeds) (hsp : ¬ sp.succeeds) :
    create (pre ++ sp :: post) =
      .error (sp.failMsg, pre.flatMap ServerSpec.ctxs ++ sp.ctxs) := by
  have h := connect_fail pre sp post [] hpre hsp
  simp only [List.nil_append] at h
  simp [create, h]

theorem succeeds_sessionOf_tools (s : ServerSpec) (h : s.succeeds) :
    s.sessionOf.tools = s.advertised.map (fun t => s.name ++ "/" ++ t) := by
  cases hso : s.outcome with
  | ok adv beh => simp [ServerSpec.sessionOf, ServerSpec.advertised, hso]
  | stdioFail e => simp [ServerSpec.succeeds, hso] at h
  | initFail e => simp [ServerSpec.succeeds, hso] at h

theorem connect_ok (specs : List ServerSpec) (st : List Ctx)
    (h : ∀ s ∈ specs, s.succeeds) :
    connect_to_multiple_servers specs st =
      .ok (specs.map (fun s => (s.name, s.sessionOf)), st ++ specs.flatMap ServerSpec.ctxs) := by
  induction specs generalizing st with
  | nil => simp [connect_to_multiple_servers]
  | cons s rest ih =>
    have hs : s.succeeds := h s (List.mem_cons_self s rest)
    cases hso : s.outcome with
    | ok adv beh =>
      have ihx := ih (st ++ s.ctxs) (fun x hx => h x (List.mem_cons_of_mem s hx))
      simp only [connect_to_multiple_servers, connect_to_server, hso]
      simp only [ihx]
      simp [ServerSpec.sessionOf, ServerSpec.ctxs, hso, List.append_assoc]
    | stdioFail e => simp [ServerSpec.succeeds, hso] at hs
    | initFail e => simp [ServerSpec.succeeds, hso] at hs

theorem create_ok (specs : List ServerSpec) (h : ∀ s ∈ specs, s.succeeds) :
    create specs =
      .ok ⟨specs.map (fun s => (s.name, s.sessionOf)),
        specs.map (fun s => (s.name, s.sessionOf)),
        specs.flatMap ServerSpec.ctxs⟩ := by
  rw [create, connect_ok specs [] h]
  simp

theorem get_tools_create (specs : List ServerSpec) (h : ∀ s ∈ specs, s.succeeds) :
    get_tools (specs.map (fun s => (s.name, s.sessionOf))) =
      specs.flatMap (fun s => s.advertised.map (fun t => s.name ++ "/" ++ t)) := by
  induction specs with
  | nil => rfl
  | cons s rest ih =>
    simp only [List.map_cons, get_tools, List.flatMap_cons] at ih ⊢
    rw [succeeds_sessionOf_tools s (h s (List.mem_cons_self s rest)),
      ih (fun x hx => h x (List.mem_cons_of_mem s hx))]

theorem slash_append_inj (xs : List Char) : ∀ (ys a b : List Char), '/' ∉ xs → '/' ∉ ys →
    xs ++ '/' :: a = ys ++ '/' :: b → xs = ys ∧ a = b := by
  induction xs with
  | nil =>
    intro ys a b _ hy h
    cases ys with
    | nil => simpa using h
    | cons y ys1 =>
      exfalso
      simp only [List.nil_append, List.cons_append, List.cons.injEq] at h
      exact hy (h.1 ▸ List.mem_cons_self y ys1)
  | cons x xs1 ih =>
    intro ys a b hx hy h
    cases ys with
    | nil =>
      exfalso
      simp only [List.nil_append, List.cons_append, List.cons.injEq] at h
      exact hx (h.1.symm ▸ List.mem_cons_self x xs1)
    | cons y ys1 =>
      simp only [List.cons_append, List.cons.injEq] at h
      obtain ⟨h1, h2⟩ := h
      have hx1 : '/' ∉ xs1 := fun hm => hx (List.mem_cons_of_mem x hm)
      have hy1 : '/' ∉ ys1 := fun hm => hy (List.mem_cons_of_mem y hm)
      obtain ⟨ha, hb⟩ := ih ys1 a b hx1 hy1 h2
      exact ⟨by rw [h1, ha], hb⟩

theorem namespaced_inj (n1 n2 t1 t2 : String) (h1 : '/' ∉ n1.data) (h2 : '/' ∉ n2.data)
    (h : n1 ++ "/" ++ t1 = n2 ++ "/" ++ t2) : n1 = n2 ∧ t1 = t2 := by
  have hd : n1.data ++ '/' :: t1.data = n2.data ++ '/' :: t2.data := by
    have hdata := congrArg String.data h
    simpa [String.data_append, List.append_assoc] using hdata
  obtain ⟨ha, hb⟩ := slash_append_inj n1.data n2.data t1.data t2.data h1 h2 hd
  exact ⟨String.ext ha, String.ext hb⟩

theorem nodup_namespaced (specs : List ServerSpec)
    (hn : (specs.map ServerSpec.name).Nodup)
    (hs : ∀ s ∈ specs, '/' ∉ s.name.data)
    (ht : ∀ s ∈ specs, s.advertised.Nodup) :
    (specs.flatMap (fun s => s.advertised.map (fun t => s.name ++ "/" ++ t))).Nodup := by
  induction specs with
  | nil => simp
  | cons s rest ih =>
    simp only [List.map_cons, List.nodup_cons] at hn
    simp only [List.flatMap_cons]
    refine List.Nodup.append ?_ ?_ ?_
    · refine (ht s (List.mem_cons_self s rest)).map ?_
      intro t1 t2 heq
      exact (namespaced_inj s.name s.name t1 t2 (hs s (List.mem_cons_self s rest))
        (hs s (List.mem_cons_self s rest)) heq).2
    · exact ih hn.2 (fun x hx => hs x (List.mem_cons_of_mem s hx))
        (fun x hx => ht x (List.mem_cons_of_mem s hx))
    · intro x hxA hxB
      obtain ⟨t1, _, hx1⟩ := List.mem_map.mp hxA
      obtain ⟨s2, hs2, hx2⟩ := List.mem_flatMap.mp hxB
      obtain ⟨t2, _, hx3⟩ := List.mem_map.mp hx2
      have heq : s.name ++ "/" ++ t1 = s2.name ++ "/" ++ t2 := by rw [hx1, ← hx3]
      have hnames := (namespaced_inj s.name s2.name t1 t2
        (hs s (List.mem_cons_self s rest)) (hs s2 (List.mem_cons_of_mem s hs2)) heq).1
      exact hn.1 (hnames ▸ List.mem_map_of_mem ServerSpec.name hs2)

theorem except_bind_ok {α β ε : Type} (a : α) (f : α → Except ε β) :
    (Except.ok a >>= f : Except ε β) = f a := rfl

theorem runStream_spec (selected : List (String × Session)) :
    ∀ (parts : List StreamPart) (hist : List HistMsg) (ys : List ChatResponse)
      (hout : List HistMsg) (n : Nat),
      runStream selected parts hist = .ok (ys, hout, n) →
      (∃ tl, hout = hist ++ tl ∧ ∀ m ∈ tl, m.role = "tool") ∧
      (∀ r ∈ ys, r.role = "assistant" ∨ r.role = "tool") ∧
      (0 < n ↔ ∃ p ∈ parts, p.content = "" ∧ p.tool_calls ≠ []) := by
  intro parts
  induction parts with
  | nil =>
    intro hist ys hout n hmain
    simp only [runStream, Except.ok.injEq, Prod.mk.injEq] at hmain
    obtain ⟨hys, hhout, hn⟩ := hmain
    subst hys hhout hn
    exact ⟨⟨[], by simp, by simp⟩, by simp, by simp⟩
  | cons p ps ih =>
    intro hist ys hout n hmain
    simp only [runStream] at hmain
    by_cases hc : p.content ≠ ""
    · rw [if_pos hc] at hmain
      cases hrec : runStream selected ps hist with
      | error e => simp [hrec] at hmain
      | ok trip =>
        obtain ⟨ys1, h1, n1⟩ := trip
        simp only [hrec, Except.ok.injEq, Prod.mk.injEq] at hmain
        obtain ⟨hys, hhout, hn⟩ := hmain
        subst hys hhout hn
        obtain ⟨⟨tl, htl, htlrole⟩, hroles, hiff⟩ := ih _ _ _ _ hrec
        refine ⟨⟨tl, htl, htlrole⟩, ?_, ?_⟩
        · intro r hr
          rcases List.mem_cons.mp hr with rfl | hr1
          · exact Or.inl rfl
          · exact hroles r hr1
        · rw [hiff]
          constructor
          · rintro ⟨q, hq, hq2⟩
            exact ⟨q, List.mem_cons_of_mem p hq, hq2⟩
          · rintro ⟨q, hq, hq2⟩
            rcases List.mem_cons.mp hq with rfl | hq1
            · exact absurd hq2.1 hc
            · exact ⟨q, hq1, hq2⟩
    · rw [if_neg hc] at hmain
      push_neg at hc
      by_cases ht : p.tool_calls ≠ []
      · rw [if_pos ht] at hmain
        cases hcall : tool_call selected p.tool_calls with
        | error e => simp [hcall] at hmain
        | ok msgs =>
          simp only [hcall] at hmain
          cases hrec : runStream selected ps (hist ++ msgs.map (HistMsg.mk "tool")) with
          | error e => simp [hrec] at hmain
          | ok trip =>
            obtain ⟨ys1, h1, n1⟩ := trip
            simp only [hrec, Except.ok.injEq, Prod.mk.injEq] at hmain
            obtain ⟨hys, hhout, hn⟩ := hmain
            subst hys hhout hn
            obtain ⟨⟨tl, htl, htlrole⟩, hroles, _⟩ := ih _ _ _ _ hrec
            refine ⟨⟨msgs.map (HistMsg.mk "tool") ++ tl, by rw [htl, List.append_assoc], ?_⟩,
              ?_, ?_⟩
            · intro m hm
              rcases List.mem_append.mp hm with hm1 | hm2
              · obtain ⟨s, _, hs2⟩ := List.mem_map.mp hm1
                rw [← hs2]
              · exact htlrole m hm2
            · intro r hr
              rcases List.mem_append.mp hr with hr1 | hr2
              · obtain ⟨s, _, hs2⟩ := List.mem_map.mp hr1
                rw [← hs2]
                exact Or.inr rfl
              · exact hroles r hr2
            · simp only [Nat.succ_pos, true_iff]
              exact ⟨p, List.mem_cons_self p ps, hc, ht⟩
      · rw [if_neg ht] at hmain
        push_neg at ht
        obtain ⟨⟨tl, htl, htlrole⟩, hroles, hiff⟩ := ih hist ys hout n hmain
        refine ⟨⟨tl, htl, htlrole⟩, hroles, ?_⟩
        rw [hiff]
        constructor
        · rintro ⟨q, hq, hq2⟩
          exact ⟨q, List.mem_cons_of_mem p hq, hq2⟩
        · rintro ⟨q, hq, hq2⟩
          rcases List.mem_cons.mp hq with rfl | hq1
          · exact absurd ht hq2.2
          · exact ⟨q, hq1, hq2⟩

theorem recursive_prompt_spec (selected : List (String × Session)) :
    ∀ (script : List (List StreamPart)) (hist : List HistMsg) (ys : List ChatResponse)
      (hout : List HistMsg) (b c : Nat),
      recursive_prompt selected script hist = .ok (ys, hout, b, c) →
      (∃ tl, hout = hist ++ tl ∧ ∀ m ∈ tl, m.role = "tool") ∧
      (∀ r ∈ ys, r.role = "assistant" ∨ r.role = "tool") ∧
      1 ≤ c := by
  intro script
  induction script with
  | nil =>
    intro hist ys hout b c hmain
    simp [recursive_prompt] at hmain
  | cons parts rest ih =>
    intro hist ys hout b c hmain
    simp only [recursive_prompt] at hmain
    cases hrun : runStream selected parts hist with
    | error e => simp [hrun] at hmain
    | ok trip =>
      obtain ⟨ys1, h1, n1⟩ := trip
      simp only [hrun] at hmain
      by_cases hn : n1 > 0
      · rw [if_pos hn] at hmain
        cases hrec : recursive_prompt selected rest h1 with
        | error e => simp [hrec] at hmain
        | ok quad =>
          obtain ⟨ys2, h2, b2, c2⟩ := quad
          simp only [hrec, Except.ok.injEq, Prod.mk.injEq] at hmain
          obtain ⟨hys, hhout, hb, hc⟩ := hmain
          subst hys hhout hb hc
          obtain ⟨⟨tl1, htl1, hrole1⟩, hyr1, _⟩ := runStream_spec selected parts _ _ _ _ hrun
          obtain ⟨⟨tl2, htl2, hrole2⟩, hyr2, hc2⟩ := ih _ _ _ _ _ hrec
          refine ⟨⟨tl1 ++ tl2, by rw [htl2, htl1, List.append_assoc], ?_⟩, ?_, by omega⟩
          · intro m hm
            rcases List.mem_append.mp hm with hm1 | hm2
            · exact hrole1 m hm1
            · exact hrole2 m hm2
          · intro r hr
            rcases List.mem_append.mp hr with hr1 | hr2
            · exact hyr1 r hr1
            · exact hyr2 r hr2
      · rw [if_neg hn] at hmain
        simp only [Except.ok.injEq, Prod.mk.injEq] at hmain
        obtain ⟨hys, hhout, hb, hc⟩ := hmain
        subst hys hhout hb hc
        obtain ⟨⟨tl1, htl1, hrole1⟩, hyr1, _⟩ := runStream_spec selected parts _ _ _ _ hrun
        exact ⟨⟨tl1, htl1, hrole1⟩, hyr1, le_refl 1⟩

theorem recursive_prompt_consumed (selected : List (String × Session))
    (parts : List StreamPart) (rest : List (List StreamPart)) (hist : List HistMsg)
    (ys : List ChatResponse) (hout : List HistMsg) (b c : Nat)
    (hmain : recursive_prompt selected (parts :: rest) hist = .ok (ys, hout, b, c)) :
    1 < c ↔ ∃ p ∈ parts, p.content = "" ∧ p.tool_calls ≠ [] := by
  simp only [recursive_prompt] at hmain
  cases hrun : runStream selected parts hist with
  | error e => simp [hrun] at hmain
  | ok trip =>
    obtain ⟨ys1, h1, n1⟩ := trip
    simp only [hrun] at hmain
    obtain ⟨_, _, hiff⟩ := runStream_spec selected parts _ _ _ _ hrun
    by_cases hn : n1 > 0
    · rw [if_pos hn] at hmain
      cases hrec : recursive_prompt selected rest h1 with
      | error e => simp [hrec] at hmain
      | ok quad =>
        obtain ⟨ys2, h2, b2, c2⟩ := quad
        simp only [hrec, Except.ok.injEq, Prod.mk.injEq] at hmain
        obtain ⟨_, _, _, hc⟩ := hmain
        subst hc
        obtain ⟨_, _, hc2⟩ := recursive_prompt_spec selected rest _ _ _ _ _ hrec
        constructor
        · intro _
          exact hiff.mp hn
        · intro _
          omega
    · rw [if_neg hn] at hmain
      simp only [Except.ok.injEq, Prod.mk.injEq] at hmain
      obtain ⟨_, _, _, hc⟩ := hmain
      subst hc
      constructor
      · intro hlt
        omega
      · intro hex
        exact absurd (hiff.mpr hex) hn

theorem runStream_all_content (selected : List (String × Session))
    (parts : List StreamPart) (hist : List HistMsg)
    (h : ∀ p ∈ parts, p.content ≠ "") :
    runStream selected parts hist =
      .ok (parts.map (fun p => ChatResponse.mk "assistant" p.content), hist, 0) := by
  induction parts with
  | nil => rfl
  | cons p ps ih =>
    simp only [runStream]
    rw [if_pos (h p (List.mem_cons_self p ps)),
      ih (fun x hx => h x (List.mem_cons_of_mem p hx))]
    rfl

theorem runStream_single_batch (selected : List (String × Session))
    (tc : MsgToolCall) (m : String) (hist : List HistMsg)
    (h : tool_call_one selected tc = .ok m) :
    runStream selected [⟨"", [tc]⟩] hist =
      .ok ([ChatResponse.mk "tool" m], hist ++ [HistMsg.mk "tool" m], 1) := by
  have hcalls : tool_call selected [tc] = .ok [m] := by
    simp only [tool_call, h]
  simp [runStream, hcalls]

theorem pySplitAux_chars (p : Char → Bool) :
    ∀ (l acc w : List Char), (∀ c ∈ acc, p c = false) →
      w ∈ pySplitAux p l acc → ∀ c ∈ w, (c ∈ acc ∨ c ∈ l) ∧ p c = false := by
  intro l
  induction l with
  | nil =>
    intro acc w hinv hw c hc
    simp only [pySplitAux, List.mem_singleton] at hw
    subst hw
    have hc1 : c ∈ acc := List.mem_reverse.mp hc
    exact ⟨Or.inl hc1, hinv c hc1⟩
  | cons x xs ih =>
    intro acc w hinv hw c hc
    simp only [pySplitAux] at hw
    by_cases hx : p x = true
    · rw [if_pos hx] at hw
      rcases List.mem_cons.mp hw with rfl | hw1
      · have hc1 : c ∈ acc := List.mem_reverse.mp hc
        exact ⟨Or.inl hc1, hinv c hc1⟩
      · obtain ⟨hmem, hpc⟩ := ih [] w (by simp) hw1 c hc
        rcases hmem with hmem1 | hmem2
        · cases hmem1
        · exact ⟨Or.inr (List.mem_cons_of_mem x hmem2), hpc⟩
    · rw [if_neg hx] at hw
      have hinv2 : ∀ d ∈ x :: acc, p d = false := by
        intro d hd
        rcases List.mem_cons.mp hd with rfl | hd1
        · exact Bool.not_eq_true _ ▸ (by simpa using hx)
        · exact hinv d hd1
      obtain ⟨hmem, hpc⟩ := ih (x :: acc) w hinv2 hw c hc
      rcases hmem with hmem1 | hmem2
      · rcases List.mem_cons.mp hmem1 with rfl | hd1
        · exact ⟨Or.inr (List.mem_cons_self c xs), hpc⟩
        · exact ⟨Or.inl hd1, hpc⟩
      · exact ⟨Or.inr (List.mem_cons_of_mem x hmem2), hpc⟩

theorem toLower_fixed_of_kept (c : Char) (hk : keptChar c = true) (hs : pyIsSpace c = false) :
    Char.toLower c = c := by
  simp only [keptChar, hs, Bool.or_false, Bool.or_eq_true, Bool.and_eq_true,
    decide_eq_true_eq] at hk
  rw [Char.toLower, if_neg]
  rcases hk with ⟨h1, h2⟩ | ⟨h1, h2⟩
  · have n1 : 97 ≤ c.toNat := h1
    omega
  · have n2 : c.toNat ≤ 57 := h2
    omega

theorem extract_keywords_lower (q : String) :
    ∀ k ∈ extract_keywords q, pyLower k = k := by
  intro k hk
  simp only [extract_keywords] at hk
  have hkw : k ∈ pySplitWs (pySubNonAlnum (pyLower q)) := List.mem_of_mem_filter hk
  simp only [pySplitWs, List.mem_map, List.mem_filter] at hkw
  obtain ⟨w, ⟨hwmem, _⟩, hwk⟩ := hkw
  have hchars := pySplitAux_chars pyIsSpace (pySubNonAlnum (pyLower q)).data [] w
    (by simp) hwmem
  subst hwk
  have hfix : ∀ c ∈ w, Char.toLower c = c := by
    intro c hc
    obtain ⟨hmem, hps⟩ := hchars c hc
    rcases hmem with hmem1 | hmem2
    · cases hmem1
    · simp only [pySubNonAlnum, List.mem_map] at hmem2
      obtain ⟨d, _, hd2⟩ := hmem2
      by_cases hkd : keptChar d = true
      · rw [if_pos hkd] at hd2
        subst hd2
        exact toLower_fixed_of_kept d hkd hps
      · rw [if_neg hkd] at hd2
        subst hd2
        simp [pyIsSpace] at hps
  show pyLower (String.mk w) = String.mk w
  simp only [pyLower]
  exact congrArg String.mk (by rw [List.map_congr_left hfix]; simp)

theorem insertByScoreDesc_perm (x : MatchEntry) (l : List MatchEntry) :
    List.Perm (insertByScoreDesc x l) (x :: l) := by
  induction l with
  | nil => rfl
  | cons y ys ih =>
    simp only [insertByScoreDesc]
    by_cases h : x.score ≤ y.score
    · rw [if_pos h]
      exact (ih.cons y).trans (List.Perm.swap x y ys)
    · rw [if_neg h]

theorem sortByScoreDesc_perm (l : List MatchEntry) : List.Perm (sortByScoreDesc l) l := by
  induction l with
  | nil => rfl
  | cons x xs ih =>
    exact (insertByScoreDesc_perm x (sortByScoreDesc xs)).trans (ih.cons x)

theorem insertByScoreDesc_sorted (x : MatchEntry) (l : List MatchEntry)
    (h : l.Pairwise (fun a b => b.score ≤ a.score)) :
    (insertByScoreDesc x l).Pairwise (fun a b => b.score ≤ a.score) := by
  induction l with
  | nil => simp [insertByScoreDesc]
  | cons y ys ih =>
    simp only [insertByScoreDesc]
    rw [List.pairwise_cons] at h
    by_cases hle : x.score ≤ y.score
    · rw [if_pos hle]
      rw [List.pairwise_cons]
      constructor
      · intro z hz
        rcases List.mem_cons.mp ((insertByScoreDesc_perm x ys).mem_iff.mp hz) with rfl | hz1
        · exact hle
        · exact h.1 z hz1
      · exact ih h.2
    · rw [if_neg hle]
      push_neg at hle
      rw [List.pairwise_cons]
      constructor
      · intro z hz
        rcases List.mem_cons.mp hz with rfl | hz1
        · exact le_of_lt hle
        · exact le_trans (h.1 z hz1) (le_of_lt hle)
      · rw [List.pairwise_cons]
        exact h

theorem sortByScoreDesc_sorted (l : List MatchEntry) :
    (sortByScoreDesc l).Pairwise (fun a b => b.score ≤ a.score) := by
  induction l with
  | nil => simp [sortByScoreDesc]
  | cons x xs ih => exact insertByScoreDesc_sorted x (sortByScoreDesc xs) ih

theorem mem_smartMatches (db : List Row) (ks : List String) (m : MatchEntry) :
    m ∈ smartMatches db ks ↔
      ∃ r ∈ db, m.question = r.question ∧ m.answer = r.answer ∧
        m.score = calculate_match_score ks r.question ∧ 0 < m.score := by
  simp only [smartMatches, List.mem_filterMap]
  constructor
  · rintro ⟨r, hr, hm⟩
    by_cases hs : 0 < calculate_match_score ks r.question
    · rw [if_pos hs] at hm
      obtain rfl := Option.some.inj hm
      exact ⟨r, hr, rfl, rfl, rfl, hs⟩
    · rw [if_neg hs] at hm
      cases hm
  · rintro ⟨r, hr, hq, ha, hsc, hpos⟩
    refine ⟨r, hr, ?_⟩
    rw [if_pos (hsc ▸ hpos)]
    cases m
    simp_all

theorem smartMatches_eq_nil_iff (db : List Row) (ks : List String) :
    smartMatches db ks = [] ↔
      ∀ r ∈ db, calculate_match_score ks r.question ≤ 0 := by
  rw [smartMatches, List.filterMap_eq_nil_iff]
  constructor
  · intro h r hr
    have := h r hr
    by_cases hs : 0 < calculate_match_score ks r.question
    · rw [if_pos hs] at this
      cases this
    · exact not_lt.mp hs
  · intro h r hr
    rw [if_neg (not_lt.mpr (h r hr))]

/-! ## Claims -/

/-- Claim C3 (counterexample): one server (trivially distinct names) that
advertises the same tool name twice yields a catalog with duplicate
namespaced names — the claim's no-duplicates guarantee fails without
assuming each server's advertised tool names are themselves distinct. -/
theorem C3_duplicate_tools_counterexample :
    toolsOfCreated [⟨"a", .ok ["x", "x"] behA⟩] = some ["a/x", "a/x"] ∧
    ¬ (["a/x", "a/x"] : List String).Nodup :=
  ⟨rfl, by decide⟩

/-- Claim C3 (amended): for any configured server set whose servers all come
up, the default-scope catalog has size equal to the sum of the advertised
tool counts, and every name has the form `<server>/<tool>`; the names are
moreover duplicate-free provided the server names are distinct and
slash-free and each server's advertised tool names are distinct. -/
theorem C3_catalog_amended :
    ∀ (specs : List ServerSpec), (∀ s ∈ specs, s.succeeds) →
      ∃ cl, create specs = .ok cl ∧ cl.selected_server = cl.servers ∧
        get_tools cl.selected_server =
          specs.flatMap (fun s => s.advertised.map (fun t => s.name ++ "/" ++ t)) ∧
        (get_tools cl.selected_server).length =
          (specs.map (fun s => s.advertised.length)).sum ∧
        (∀ x ∈ get_tools cl.selected_server,
          ∃ s ∈ specs, ∃ t ∈ s.advertised, x = s.name ++ "/" ++ t) ∧
        ((specs.map ServerSpec.name).Nodup →
          (∀ s ∈ specs, '/' ∉ s.name.data) →
          (∀ s ∈ specs, s.advertised.Nodup) →
          (get_tools cl.selected_server).Nodup) := by
  intro specs h
  refine ⟨_, create_ok specs h, rfl, get_tools_create specs h, ?_, ?_, ?_⟩
  · rw [get_tools_create specs h, List.length_flatMap]
    have hmc : ∀ s ∈ specs,
        (List.length ∘ fun s => List.map (fun t => s.name ++ "/" ++ t) s.advertised) s =
          s.advertised.length := by
      intro s _
      simp
    rw [List.map_congr_left hmc]
  · intro x hx
    rw [get_tools_create specs h] at hx
    obtain ⟨s, hsmem, hx2⟩ := List.mem_flatMap.mp hx
    obtain ⟨t, htmem, hx3⟩ := List.mem_map.mp hx2
    exact ⟨s, hsmem, t, htmem, hx3.symm⟩
  · intro hn hslash ht
    rw [get_tools_create specs h]
    exact nodup_namespaced specs hn hslash ht

/-- Witness for C3 at a concrete two-server configuration. -/
theorem C3_catalog_amended_witness :
    toolsOfCreated [⟨"a", .ok ["x"] behA⟩, ⟨"b", .ok ["x", "y"] behA⟩] =
      some ["a/x", "b/x", "b/y"] ∧ (["a/x", "b/x", "b/y"] : List String).Nodup := by
  obtain ⟨cl, hcl, hsel, htools, hlen, hform, hnodup⟩ :=
    C3_catalog_amended [⟨"a", .ok ["x"] behA⟩, ⟨"b", .ok ["x", "y"] behA⟩] (by decide)
  constructor
  · simp only [toolsOfCreated, hcl, htools]
    rfl
  · have h2 := hnodup (by decide) (by decide) (by decide)
    rw [htools] at h2
    exact h2

/-- Claim C6: `extract_keywords` lower-cases, strips non-alphanumerics, and
drops stopwords and tokens shorter than 3 characters, so
`extract_keywords("What is NTUST?") = ["ntust"]`; `calculate_match_score`
returns the fraction of keywords occurring as substrings of the lower-cased
question (`0.0` for an empty list), so the given example scores `1.0`.
Every extracted keyword is already lower-case, so on extracted keywords the
verbatim substring test coincides with the case-insensitive one (last
conjunct). -/
theorem C6_keywords_and_score :
    extract_keywords "What is NTUST?" = ["ntust"]
    ∧ calculate_match_score ["ntust", "located"] "Where is NTUST located?" = 1
    ∧ (∀ q : String, calculate_match_score [] q = 0)
    ∧ (∀ (ks : List String) (q : String), ks ≠ [] →
        calculate_match_score ks q =
          ((ks.filter (fun k => pyInStr k (pyLower q))).length : ℚ) / (ks.length : ℚ))
    ∧ (∀ (q k : String), k ∈ extract_keywords q →
        pyLower k = k ∧ k ∉ stopwords ∧ k.length > 2)
    ∧ (∀ (ks : List String) (q : String), (∀ k ∈ ks, pyLower k = k) → ks ≠ [] →
        calculate_match_score ks q =
          ((ks.filter (fun k => pyInStr (pyLower k) (pyLower q))).length : ℚ) /
            (ks.length : ℚ)) := by
  refine ⟨by decide, ?_, ?_, ?_, ?_, ?_⟩
  · have h : List.filter (fun keyword => pyInStr keyword
        (pyLower "Where is NTUST located?")) ["ntust", "located"] = ["ntust", "located"] := by
      decide
    rw [calculate_match_score]
    simp only [h]
    norm_num
    decide
  · intro q
    simp [calculate_match_score]
  · intro ks q hne
    rw [calculate_match_score, if_neg hne]
  · intro q k hk
    refine ⟨extract_keywords_lower q k hk, ?_⟩
    have := List.of_mem_filter hk
    simpa using this
  · intro ks q hlow hne
    rw [calculate_match_score, if_neg hne]
    have hfc : List.filter (fun k => pyInStr k (pyLower q)) ks =
        List.filter (fun k => pyInStr (pyLower k) (pyLower q)) ks := by
      refine List.filter_congr ?_
      intro k hk
      rw [hlow k hk]
    show ((ks.filter (fun k => pyInStr k (pyLower q))).length : ℚ) / (ks.length : ℚ) = _
    rw [hfc]

/-- Witness for C6: the fraction formula and the lower-case property at
concrete inputs. -/
theorem C6_keywords_and_score_witness :
    calculate_match_score ["ntust"] "NTUST rocks" =
      (((["ntust"] : List String).filter
        (fun k => pyInStr k (pyLower "NTUST rocks"))).length : ℚ) /
        ((["ntust"] : List String).length : ℚ)
    ∧ pyLower "ntust" = "ntust" :=
  ⟨C6_keywords_and_score.2.2.2.1 ["ntust"] "NTUST rocks" (by decide),
   (C6_keywords_and_score.2.2.2.2.1 "What is NTUST?" "ntust" (by decide)).1⟩

/-- Claim C4: for every client with a session named `a` (unique session
names, as dict keys are), `select_server(["a"])` followed by `get_tools()`
returns exactly the tools belonging to server `a`; and `select_server` with
names matching no session followed by `get_tools()` returns an empty list
rather than raising an error. -/
theorem C4_select_server_scope :
    (∀ (servers : List (String × Session)) (a : String) (sess : Session),
      (servers.map Prod.fst).Nodup → (a, sess) ∈ servers →
      get_tools (select_server servers [a]) = sess.tools)
    ∧ (∀ (servers : List (String × Session)) (names : List String),
      (∀ p ∈ servers, p.1 ∉ names) →
      select_server servers names = [] ∧ get_tools (select_server servers names) = []) := by
  constructor
  · intro servers a sess hnd hmem
    rw [select_server_single servers a sess hnd hmem, get_tools_singleton]
  · intro servers names h
    have h0 := select_server_eq_nil servers names h
    exact ⟨h0, by rw [h0]; rfl⟩

/-- Witness for C4 at a concrete one-server client. -/
theorem C4_select_server_scope_witness :
    get_tools (select_server [("a", sessA)] ["a"]) = sessA.tools ∧
    select_server [("a", sessA)] ["zzz"] = [] :=
  ⟨C4_select_server_scope.1 [("a", sessA)] "a" sessA (by decide) (by simp),
   (C4_select_server_scope.2 [("a", sessA)] ["zzz"] (by simp)).1⟩

/-- Claim C1 (counterexample): in `_tool_call`, the scope lookup
`self.selected_server[split[0]]` and the indexing `split[1]` happen before
the `try` block.  A call naming a server absent from the scope raises an
uncaught `KeyError`, and a call without a namespace separator raises an
uncaught `IndexError`; neither produces an error string in the result list.
Only failures inside the remote call are caught (third conjunct). -/
theorem C1_uncaught_lookup_counterexample :
    tool_call [("a", sessA)] [⟨⟨"b/x", "1"⟩⟩] = .error (.keyError "b") ∧
    tool_call [("a", sessA)] [⟨⟨"a", "1"⟩⟩] = .error .indexError ∧
    tool_call [("a", sessA)] [⟨⟨"a/bad", "1"⟩⟩] =
      .ok ["Error in tool: name=\x27a/bad\x27 arguments=1\nargs: 1\nboom"] :=
  ⟨rfl, rfl, rfl⟩

/-- Claim C1 (amended): for every tool call whose name contains the
namespace separator and whose first segment names a session in the current
scope, `_tool_call` returns one message per call and never raises — failures
of the remote execution itself (unknown tool, execution error, malformed
arguments, missing text content) are caught and rendered as a descriptive
error string in the result list.  Calls violating the two conditions above
raise instead (see the counterexample). -/
theorem C1_tool_call_amended :
    (∀ (selected : List (String × Session)) (calls : List MsgToolCall),
      (∀ tc ∈ calls, 2 ≤ (pySplitOnChar '/' tc.function.name).length ∧
        (lookupServer selected ((pySplitOnChar '/' tc.function.name).headD "")).isSome) →
      ∃ msgs, tool_call selected calls = .ok msgs ∧ msgs.length = calls.length)
    ∧ (∀ (selected : List (String × Session)) (tc : MsgToolCall) (sess : Session)
        (e : String) (tn : String),
        lookupServer selected ((pySplitOnChar '/' tc.function.name).headD "") = some sess →
        (pySplitOnChar '/' tc.function.name)[1]? = some tn →
        callAndExtract sess tn tc.function.arguments = .error e →
        tool_call_one selected tc =
          .ok ("Error in tool: " ++ renderFn tc.function ++ "\nargs: " ++
            tc.function.arguments ++ "\n" ++ e)) := by
  constructor
  · intro selected calls h
    induction calls with
    | nil => exact ⟨[], rfl, rfl⟩
    | cons tc rest ih =>
      obtain ⟨m, hm⟩ := tool_call_one_ok selected tc
        (h tc (List.mem_cons_self tc rest)).1 (h tc (List.mem_cons_self tc rest)).2
      obtain ⟨msgs, hmsgs, hlen⟩ := ih (fun x hx => h x (List.mem_cons_of_mem tc hx))
      exact ⟨m :: msgs, by simp only [tool_call, hm, hmsgs], by simp [hlen]⟩
  · intro selected tc sess e tn hsess htn hcall
    simp only [tool_call_one, hsess, htn, hcall]

/-- Witness for C1: a two-call batch — one succeeding call, one whose remote
execution raises — yields two result messages without raising. -/
theorem C1_tool_call_amended_witness :
    (tool_call [("a", sessA)] [⟨⟨"a/t", "1"⟩⟩, ⟨⟨"a/bad", "2"⟩⟩]).isOk = true := by
  obtain ⟨msgs, hm, _⟩ := C1_tool_call_amended.1 [("a", sessA)]
    [⟨⟨"a/t", "1"⟩⟩, ⟨⟨"a/bad", "2"⟩⟩] (by decide)
  rw [hm]
  rfl

/-- Claim C2 (counterexample): when the second of two configured servers
fails to start, `create` fails fatally, but the two contexts opened for the
first server are NOT released: they remain on the client's exit stack, which
`create` leaves unclosed (the raised exception also propagates unchanged
rather than as a `ConnectionError`). -/
theorem C2_create_leak_counterexample :
    create [⟨"a", .ok ["x"] behA⟩, ⟨"b", .stdioFail "boom"⟩] =
      .error ("boom", [Ctx.stdio "a", Ctx.session "a"]) ∧
    ([Ctx.stdio "a", Ctx.session "a"] : List Ctx) ≠ [] :=
  ⟨rfl, by decide⟩

/-- Claim C2 (amended): if any configured server fails to start or
hand-shake, `create` fails fatally, propagating that server's own exception
unchanged; the sessions already opened for earlier servers are NOT released
by `create` — their contexts (and, when `initialize()` failed, the failing
server's own two contexts) all remain on the unclosed exit stack. -/
theorem C2_create_failure_amended :
    ∀ (pre : List ServerSpec) (sp : ServerSpec) (post : List ServerSpec),
      (∀ s ∈ pre, s.succeeds) → ¬ sp.succeeds →
      create (pre ++ sp :: post) =
        .error (sp.failMsg, pre.flatMap ServerSpec.ctxs ++ sp.ctxs) ∧
      (∀ s ∈ pre, Ctx.stdio s.name ∈ pre.flatMap ServerSpec.ctxs ++ sp.ctxs ∧
        Ctx.session s.name ∈ pre.flatMap ServerSpec.ctxs ++ sp.ctxs) := by
  intro pre sp post hpre hsp
  refine ⟨create_fail pre sp post hpre hsp, fun s hs => ?_⟩
  have hctxs := succeeds_ctxs s (hpre s hs)
  constructor
  · exact List.mem_append_left _ (List.mem_flatMap.mpr ⟨s, hs, by rw [hctxs]; simp⟩)
  · exact List.mem_append_left _ (List.mem_flatMap.mpr ⟨s, hs, by rw [hctxs]; simp⟩)

/-- Witness for C2: one healthy server followed by one whose handshake
fails; the healthy server's contexts and the failing server's own two
contexts are all left on the stack. -/
theorem C2_create_failure_amended_witness :
    create [⟨"a", ConnectOutcome.ok ["x"] behA⟩, ⟨"c", ConnectOutcome.initFail "nope"⟩] =
      .error ("nope", [Ctx.stdio "a", Ctx.session "a", Ctx.stdio "c", Ctx.session "c"]) := by
  have h := (C2_create_failure_amended [⟨"a", ConnectOutcome.ok ["x"] behA⟩]
    ⟨"c", ConnectOutcome.initFail "nope"⟩ [] (by decide) (by decide)).1
  simpa [ServerSpec.ctxs, ServerSpec.failMsg] using h

/-- Claim C5 (counterexample): a streamed part carrying BOTH content and a
tool-call batch is classified as content (`if part.message.content` wins);
its batch is ignored, no tool is invoked, and the loop does NOT recurse even
though a tool-call batch was received in the stream — refuting the claimed
"recurses iff at least one tool-call batch was received". -/
theorem C5_content_priority_counterexample :
    recursive_prompt [] [[⟨"hi", [⟨⟨"s/t", "1"⟩⟩]⟩]] [] =
      .ok ([ChatResponse.mk "assistant" "hi"], [], 0, 1) ∧
    (StreamPart.mk "hi" [⟨⟨"s/t", "1"⟩⟩]).tool_calls ≠ [] :=
  ⟨rfl, by decide⟩

/-- Claim C5 (amended): for a scripted endpoint whose first two streams each
deliver one content-free part carrying a single tool call and whose third
stream carries only plain content, the resolve loop performs exactly 2
tool-invocation rounds, appends exactly 2 tool-role messages, and yields the
third stream's content as the final assistant output (consuming exactly 3
streams); in general the loop recurses after a stream iff at least one part
of that stream carried no content and a nonempty tool-call batch (a part
carrying both content and tool calls counts as content, not as a batch). -/
theorem C5_resolve_loop_amended :
    (∀ (selected : List (String × Session)) (c1 c2 : MsgToolCall)
      (parts3 : List StreamPart) (hist : List HistMsg) (m1 m2 : String),
      tool_call_one selected c1 = .ok m1 →
      tool_call_one selected c2 = .ok m2 →
      (∀ p ∈ parts3, p.content ≠ "") →
      recursive_prompt selected [[⟨"", [c1]⟩], [⟨"", [c2]⟩], parts3] hist =
        .ok (ChatResponse.mk "tool" m1 :: ChatResponse.mk "tool" m2 ::
              parts3.map (fun p => ChatResponse.mk "assistant" p.content),
          hist ++ [HistMsg.mk "tool" m1, HistMsg.mk "tool" m2], 2, 3))
    ∧ (∀ (selected : List (String × Session)) (parts : List StreamPart)
        (rest : List (List StreamPart)) (hist : List HistMsg)
        (ys : List ChatResponse) (hout : List HistMsg) (b c : Nat),
        recursive_prompt selected (parts :: rest) hist = .ok (ys, hout, b, c) →
        (1 < c ↔ ∃ p ∈ parts, p.content = "" ∧ p.tool_calls ≠ [])) := by
  constructor
  · intro selected c1 c2 parts3 hist m1 m2 h1 h2 h3
    have e1 := runStream_single_batch selected c1 m1 hist h1
    have e2 := runStream_single_batch selected c2 m2 (hist ++ [HistMsg.mk "tool" m1]) h2
    have e3 := runStream_all_content selected parts3
      (hist ++ [HistMsg.mk "tool" m1, HistMsg.mk "tool" m2]) h3
    simp [recursive_prompt, e1, e2, e3, List.append_assoc]
  · exact fun selected => recursive_prompt_consumed selected

/-- Witness for C5 at a concrete two-round scripted conversation. -/
theorem C5_resolve_loop_amended_witness :
    recursive_prompt [("a", sessA)]
      [[⟨"", [⟨⟨"a/t", "1"⟩⟩]⟩], [⟨"", [⟨⟨"a/t", "2"⟩⟩]⟩], [⟨"done", []⟩]] [] =
      .ok ([ChatResponse.mk "tool" "tool: a/t\nargs: 1\nreturn: result of t",
            ChatResponse.mk "tool" "tool: a/t\nargs: 2\nreturn: result of t",
            ChatResponse.mk "assistant" "done"],
        [HistMsg.mk "tool" "tool: a/t\nargs: 1\nreturn: result of t",
         HistMsg.mk "tool" "tool: a/t\nargs: 2\nreturn: result of t"], 2, 3) := by
  have h := C5_resolve_loop_amended.1 [("a", sessA)] ⟨⟨"a/t", "1"⟩⟩ ⟨⟨"a/t", "2"⟩⟩
    [⟨"done", []⟩] [] "tool: a/t\nargs: 1\nreturn: result of t"
    "tool: a/t\nargs: 2\nreturn: result of t" rfl rfl (by decide)
  simpa using h

/-- Claim C9 (counterexample): `process_message` yields tool-role units too:
in a turn with one tool call, the first yielded unit is a `ChatResponse`
with role `"tool"`, not an assistant-role content chunk. -/
theorem C9_tool_role_yield_counterexample :
    process_message [("a", sessA)] [[⟨"", [⟨⟨"a/t", "1"⟩⟩]⟩], [⟨"done", []⟩]] [] "hi" =
      .ok ([ChatResponse.mk "tool" "tool: a/t\nargs: 1\nreturn: result of t",
            ChatResponse.mk "assistant" "done"],
        [HistMsg.mk "user" "hi",
         HistMsg.mk "tool" "tool: a/t\nargs: 1\nreturn: result of t"], 1, 2) ∧
    (ChatResponse.mk "tool" "tool: a/t\nargs: 1\nreturn: result of t").role ≠ "assistant" :=
  ⟨rfl, by decide⟩

/-- Claim C9 (amended): every unit `process_message` yields to its caller is
either an assistant-role content chunk or a tool-role result message — tool
results are surfaced to the caller as well, and callers (HTTP/CLI) filter on
the role. -/
theorem C9_yield_roles_amended :
    ∀ (selected : List (String × Session)) (script : List (List StreamPart))
      (hist : List HistMsg) (message : String) (ys : List ChatResponse)
      (hout : List HistMsg) (b c : Nat),
      process_message selected script hist message = .ok (ys, hout, b, c) →
      ∀ r ∈ ys, r.role = "assistant" ∨ r.role = "tool" := by
  intro selected script hist message ys hout b c hmain r hr
  rw [process_message] at hmain
  exact (recursive_prompt_spec selected script _ _ _ _ _ hmain).2.1 r hr

/-- Witness for C9 at a concrete one-tool-call turn. -/
theorem C9_yield_roles_amended_witness :
    (ChatResponse.mk "tool" "tool: a/t\nargs: 1\nreturn: result of t").role = "assistant" ∨
    (ChatResponse.mk "tool" "tool: a/t\nargs: 1\nreturn: result of t").role = "tool" :=
  C9_yield_roles_amended [("a", sessA)] [[⟨"", [⟨⟨"a/t", "1"⟩⟩]⟩], [⟨"done", []⟩]] [] "hi"
    [ChatResponse.mk "tool" "tool: a/t\nargs: 1\nreturn: result of t",
     ChatResponse.mk "assistant" "done"]
    [HistMsg.mk "user" "hi",
     HistMsg.mk "tool" "tool: a/t\nargs: 1\nreturn: result of t"] 1 2 rfl
    (ChatResponse.mk "tool" "tool: a/t\nargs: 1\nreturn: result of t") (by decide)

/-- Claim C10: during a turn, the only messages `process_message` appends to
the conversation history are the user message and tool-role results; the
streamed assistant content is yielded but never appended, so a history
without assistant-role messages stays without assistant-role messages. -/
theorem C10_history_no_assistant :
    ∀ (selected : List (String × Session)) (script : List (List StreamPart))
      (hist : List HistMsg) (message : String) (ys : List ChatResponse)
      (hout : List HistMsg) (b c : Nat),
      process_message selected script hist message = .ok (ys, hout, b, c) →
      ∃ tl, hout = hist ++ HistMsg.mk "user" message :: tl ∧
        (∀ m ∈ tl, m.role = "tool") ∧
        ((∀ m ∈ hist, m.role ≠ "assistant") → ∀ m ∈ hout, m.role ≠ "assistant") := by
  intro selected script hist message ys hout b c hmain
  rw [process_message] at hmain
  obtain ⟨⟨tl, htl, hrole⟩, _, _⟩ := recursive_prompt_spec selected script _ _ _ _ _ hmain
  refine ⟨tl, by rw [htl]; simp, hrole, ?_⟩
  intro hh m hm
  rw [htl] at hm
  rcases List.mem_append.mp hm with hm1 | hm2
  · rcases List.mem_append.mp hm1 with hm3 | hm4
    · exact hh m hm3
    · have : m = HistMsg.mk "user" message := by simpa using hm4
      rw [this]
      exact (by decide : ("user" : String) ≠ "assistant")
  · rw [hrole m hm2]
    decide

/-- Witness for C10 at a concrete one-tool-call turn. -/
theorem C10_history_no_assistant_witness :
    ∃ tl,
      [HistMsg.mk "user" "hi",
       HistMsg.mk "tool" "tool: a/t\nargs: 1\nreturn: result of t"] =
        [] ++ HistMsg.mk "user" "hi" :: tl ∧
      (∀ m ∈ tl, m.role = "tool") ∧
      ((∀ m ∈ ([] : List HistMsg), m.role ≠ "assistant") →
        ∀ m ∈ [HistMsg.mk "user" "hi",
          HistMsg.mk "tool" "tool: a/t\nargs: 1\nreturn: result of t"],
          m.role ≠ "assistant") :=
  C10_history_no_assistant [("a", sessA)] [[⟨"", [⟨⟨"a/t", "1"⟩⟩]⟩], [⟨"done", []⟩]] [] "hi"
    [ChatResponse.mk "tool" "tool: a/t\nargs: 1\nreturn: result of t",
     ChatResponse.mk "assistant" "done"]
    [HistMsg.mk "user" "hi",
     HistMsg.mk "tool" "tool: a/t\nargs: 1\nreturn: result of t"] 1 2 rfl

/-- Claim C7 (counterexample): a query from which no keyword survives (all
stopwords/short tokens) yields no stored question scoring above zero, yet
`smart_query` neither falls back to a first-keyword substring search nor
returns the no-match message naming the searched keywords — it returns the
early rephrase-request message instead. -/
theorem C7_no_keywords_counterexample :
    extract_keywords "is" = [] ∧
    smart_query [⟨"q1", "a1"⟩] "is" = rephraseMsg ∧
    pyInStr "No matches found" rephraseMsg = false ∧
    pyInStr "Based on keyword" rephraseMsg = false :=
  ⟨by decide, rfl, by decide, by decide⟩

/-- Claim C7 (amended): whenever at least one keyword is extracted from the
query, `smart_query` renders the top `min 3 _` scored matches (at most 3
blocks), in descending score order, each coming from a stored row with its
positive match score; when no stored question scores above zero (exactly when
the match list is empty) it falls back to a substring search on the first
keyword over question and answer, and if that also yields nothing it returns
the no-match message naming the searched keywords.  When no keyword is
extracted, a rephrase-request message is returned instead (counterexample). -/
theorem C7_smart_query_amended :
    ∀ (db : List Row) (q k0 : String) (kr : List String),
      extract_keywords q = k0 :: kr →
      ((smartMatches db (k0 :: kr) ≠ [] →
        smart_query db q =
          renderTopMatches ((sortByScoreDesc (smartMatches db (k0 :: kr))).take 3) ∧
        ((sortByScoreDesc (smartMatches db (k0 :: kr))).take 3).length ≤ 3 ∧
        ((sortByScoreDesc (smartMatches db (k0 :: kr))).take 3).Pairwise
          (fun a b => b.score ≤ a.score) ∧
        (∀ m ∈ (sortByScoreDesc (smartMatches db (k0 :: kr))).take 3,
          ∃ r ∈ db, m.question = r.question ∧ m.answer = r.answer ∧
            m.score = calculate_match_score (k0 :: kr) r.question ∧ 0 < m.score))
      ∧ (smartMatches db (k0 :: kr) = [] → fallbackRows db k0 ≠ [] →
          smart_query db q =
            "Based on keyword \x27" ++ k0 ++ "\x27:\n" ++
              String.join ((fallbackRows db k0).map fallbackBlock))
      ∧ (smartMatches db (k0 :: kr) = [] → fallbackRows db k0 = [] →
          smart_query db q = noMatchMsg (k0 :: kr))
      ∧ (smartMatches db (k0 :: kr) = [] ↔
          ∀ r ∈ db, calculate_match_score (k0 :: kr) r.question ≤ 0)) := by
  intro db q k0 kr hek
  refine ⟨?_, ?_, ?_, smartMatches_eq_nil_iff db (k0 :: kr)⟩
  · intro hne
    obtain ⟨m0, mrest, hm0⟩ := List.exists_cons_of_ne_nil hne
    refine ⟨?_, ?_, ?_, ?_⟩
    · simp only [smart_query, hek, hm0]
    · simp only [List.length_take]
      exact min_le_left 3 _
    · exact (sortByScoreDesc_sorted _).sublist (List.take_sublist 3 _)
    · intro m hm
      have hmem : m ∈ smartMatches db (k0 :: kr) :=
        (sortByScoreDesc_perm _).subset (List.take_subset 3 _ hm)
      exact (mem_smartMatches db (k0 :: kr) m).mp hmem
  · intro hnil hfb
    simp only [smart_query, hek, hnil]
    rw [if_neg hfb]
  · intro hnil hfb
    simp only [smart_query, hek, hnil]
    rw [if_pos hfb]

/-- Witness for C7: a one-row table and a query scoring 1.0 on it. -/
theorem C7_smart_query_amended_witness :
    smart_query [⟨"abc", "d"⟩] "abc" =
      renderTopMatches ((sortByScoreDesc (smartMatches [⟨"abc", "d"⟩] ["abc"])).take 3) := by
  have hsc : calculate_match_score ["abc"] "abc" = 1 := by
    have h : List.filter (fun keyword => pyInStr keyword (pyLower "abc")) ["abc"] =
        ["abc"] := by decide
    rw [calculate_match_score]
    simp only [h]
    norm_num
  have hm : smartMatches [⟨"abc", "d"⟩] ["abc"] = [⟨"abc", "d", 1⟩] := by
    simp [smartMatches, hsc]
  exact ((C7_smart_query_amended [⟨"abc", "d"⟩] "abc" "abc" [] (by decide)).1
    (by rw [hm]; simp)).1

/-- Claim C8: closing a client twice in succession does not fault: after a
first close (which releases every entered context exactly once, in reverse
acquisition order, leaving the stack empty), a second run of the close path
releases nothing and completes; `__aexit__` merely closes the stack,
swallowing a `ValueError`. -/
theorem C8_reentrant_close (stack : List Ctx) :
    aexit stack = (stack.reverse, []) ∧
    aexit (aexit stack).2 = ([], []) ∧
    (∀ c : Ctx, (aexit stack).1.count c = stack.count c ∧
      (aexit (aexit stack).2).1.count c = 0) := by
  refine ⟨rfl, rfl, fun c => ⟨?_, rfl⟩⟩
  simp [aexit, aclose]

end MCPModel
